import Mathlib

/-!
Verification development for the `rmcp-macros` tool pipeline
(`crates/rmcp-macros/src/tool.rs`).

The Rust source is a compile-time source transformer: it parses attribute
grammars, classifies parameters, and emits a descriptor accessor, a dispatch
wrapper, and (for impl blocks) a router and listing method.  This file gives a
shallow embedding of that pipeline:

* attribute token streams are modelled as lists of tokens (one token per
  `syn` parse step: an identifier, `=`, `,`, `:`, a literal, one expression,
  or one braced group);
* the three `Parse` impls (`ToolAnnotationAttrs`, `ToolFnItemAttrs`,
  `ToolImplItemAttrs`) become recursive functions over those token lists,
  mirroring the source loops branch by branch;
* the generated code (descriptor accessor, dispatch wrapper, router, listing)
  is modelled as abstract syntax values, and the dispatch wrapper and router
  additionally get an executable semantics over an abstract extraction oracle.

All functions are structurally recursive and executable.
-/

/-- Rust expressions appearing as attribute values are kept opaque: one
expression is one token of the modelled stream, carrying its source text. -/
structure Expr where
  text : String
deriving DecidableEq, Repr, Inhabited

/-- `syn::Visibility`, reduced to what the grammar distinguishes: an explicit
`pub` or the inherited (empty) visibility. -/
inductive Vis
  | inherited
  | pub
deriving DecidableEq, Repr, Inhabited

/-- A validated annotation value: the source accepts only string or boolean
literals (`Lit::Str` / `Lit::Bool`). -/
inductive AnnVal
  | str (s : String)
  | bool (b : Bool)
deriving DecidableEq, Repr, Inhabited

/-- The annotation map built by `ToolAnnotationAttrs::parse`
(`serde_json::Map<String, Value>`, i.e. a key-ordered map). -/
abbrev ToolAnnotationAttrs : Type := List (String × AnnVal)

/-- Insert into the key-ordered map modelling `serde_json::Map::insert`
(BTreeMap behaviour: keys kept sorted, equal key replaced). -/
def annInsert (m : ToolAnnotationAttrs) (k : String) (v : AnnVal) :
    ToolAnnotationAttrs :=
  match m with
  | [] => [(k, v)]
  | (k2, v2) :: rest =>
    if k = k2 then (k, v) :: rest
    else if k < k2 then (k, v) :: (k2, v2) :: rest
    else (k2, v2) :: annInsert rest k v

/-- Tokens inside the braced annotation group: `ident : literal` pairs
separated by commas.  `litOther` stands for any literal kind other than
string/boolean (e.g. an integer), which the source rejects. -/
inductive AnnTok
  | ident (s : String)
  | colon
  | comma
  | litStr (s : String)
  | litBool (b : Bool)
  | litOther
deriving DecidableEq, Repr, Inhabited

/-- `ToolAnnotationAttrs::parse` (tool.rs lines 17-44): loop parsing
`key : literal` entries; a literal that is neither string nor boolean fails
with "annotations must be string or boolean literals"; after each entry the
loop stops on empty input, otherwise consumes a comma. -/
def parseAnnLoop (acc : ToolAnnotationAttrs) :
    List AnnTok → Except String ToolAnnotationAttrs
  | [] => .ok acc
  | .ident k :: .colon :: .litStr s :: [] => .ok (annInsert acc k (.str s))
  | .ident k :: .colon :: .litStr s :: .comma :: r =>
    parseAnnLoop (annInsert acc k (.str s)) r
  | .ident _ :: .colon :: .litStr _ :: _ => .error "expected comma"
  | .ident k :: .colon :: .litBool b :: [] => .ok (annInsert acc k (.bool b))
  | .ident k :: .colon :: .litBool b :: .comma :: r =>
    parseAnnLoop (annInsert acc k (.bool b)) r
  | .ident _ :: .colon :: .litBool _ :: _ => .error "expected comma"
  | .ident _ :: .colon :: .litOther :: _ =>
    .error "annotations must be string or boolean literals"
  | .ident _ :: .colon :: _ => .error "expected literal"
  | .ident _ :: _ => .error "expected colon"
  | _ => .error "expected identifier"

/-- Identifier constants from tool.rs lines 217-222. -/
def TOOL_IDENT : String := "tool"

def SERDE_IDENT : String := "serde"

def SCHEMARS_IDENT : String := "schemars"

def AGGREGATED_IDENT : String := "aggr"

/-- Tokens of the function-item attribute stream.  One `Expr` parse consumes
one `exprVal` or one `ident` token; one `Visibility` parse consumes a
`visPub` token if present and nothing otherwise (syn's `Visibility` parses
the empty inherited visibility); `syn::braced!` consumes one `braced`
group token. -/
inductive FnTok
  | ident (s : String)
  | eq
  | comma
  | exprVal (s : String)
  | visPub
  | braced (inner : List AnnTok)
deriving DecidableEq, Repr, Inhabited

/-- Parsed function-item attributes (tool.rs lines 113-120). -/
structure ToolFnItemAttrs where
  name : Option Expr := none
  description : Option Expr := none
  vis : Option Vis := none
  aggr : Bool := false
  annotations : Option ToolAnnotationAttrs := none
deriving DecidableEq, Repr, Inhabited

/-- `ToolFnItemAttrs::parse` (tool.rs lines 122-176).  Each iteration parses
a key identifier; the `aggr` marker branch sets the flag and `continue`s
WITHOUT consuming the separating comma (tool.rs lines 133-136); every other
key requires `=`, then a value by key, then either end of input or a
comma. -/
def parseFnLoop (st : ToolFnItemAttrs) :
    List FnTok → Except String ToolFnItemAttrs
  | [] => .ok st
  | .ident key :: rest =>
    if key = AGGREGATED_IDENT then
      parseFnLoop { st with aggr := true } rest
    else
      match rest with
      | .eq :: rest2 =>
        if key = "name" then
          match rest2 with
          | .ident s :: [] => .ok { st with name := some ⟨s⟩ }
          | .ident s :: .comma :: r => parseFnLoop { st with name := some ⟨s⟩ } r
          | .ident _ :: _ => .error "expected comma"
          | .exprVal s :: [] => .ok { st with name := some ⟨s⟩ }
          | .exprVal s :: .comma :: r => parseFnLoop { st with name := some ⟨s⟩ } r
          | .exprVal _ :: _ => .error "expected comma"
          | _ => .error "expected expression"
        else if key = "description" then
          match rest2 with
          | .ident s :: [] => .ok { st with description := some ⟨s⟩ }
          | .ident s :: .comma :: r =>
            parseFnLoop { st with description := some ⟨s⟩ } r
          | .ident _ :: _ => .error "expected comma"
          | .exprVal s :: [] => .ok { st with description := some ⟨s⟩ }
          | .exprVal s :: .comma :: r =>
            parseFnLoop { st with description := some ⟨s⟩ } r
          | .exprVal _ :: _ => .error "expected comma"
          | _ => .error "expected expression"
        else if key = "vis" then
          match rest2 with
          | .visPub :: [] => .ok { st with vis := some .pub }
          | .visPub :: .comma :: r => parseFnLoop { st with vis := some .pub } r
          | .visPub :: _ => .error "expected comma"
          | [] => .ok { st with vis := some .inherited }
          | .comma :: r => parseFnLoop { st with vis := some .inherited } r
          | _ => .error "expected comma"
        else if key = "annotations" then
          match rest2 with
          | .braced inner :: rest3 =>
            match parseAnnLoop [] inner with
            | .error e => .error e
            | .ok m =>
              match rest3 with
              | [] => .ok { st with annotations := some m }
              | .comma :: r => parseFnLoop { st with annotations := some m } r
              | _ => .error "expected comma"
          | _ => .error "expected braces"
        else
          .error "unknown attribute"
      | _ => .error "expected equals"
  | _ => .error "expected identifier"

/-- Entry point: parse a function-item attribute stream from the default
state (all fields unset, `aggr` false; tool.rs lines 124-128). -/
def parseToolFnItemAttrs (ts : List FnTok) : Except String ToolFnItemAttrs :=
  parseFnLoop {} ts

/-- The value of one impl-item attribute entry, when an `= value` part is
present: `identV` is a value parsed as a plain identifier (which is also a
valid expression), `exprV` any other expression, both carrying their token
text (`to_token_stream().to_string()`). -/
inductive ImplVal
  | identV (s : String)
  | exprV (s : String)
deriving DecidableEq, Repr, Inhabited

/-- The token text of an impl attribute value. -/
def implValText : ImplVal → String
  | .identV s => s
  | .exprV s => s

/-- One comma-separated entry of the impl-item attribute stream: a key
identifier with an optional `= value` part.  The impl-item grammar is
modelled at this entry granularity (its comma mechanics in the source are
the standard parse-then-comma loop, unlike the function-item grammar, whose
token-level comma handling is load-bearing and is modelled exactly in
`parseFnLoop`). -/
structure ImplEntry where
  key : String
  value : Option ImplVal
deriving DecidableEq, Repr, Inhabited

/-- Parsed impl-item attributes (tool.rs lines 46-51). -/
structure ToolImplItemAttrs where
  tool_box : Option (Option String) := none
  default_build : Bool := true
  description : Option Expr := none
deriving DecidableEq, Repr, Inhabited

/-- One iteration of `ToolImplItemAttrs::parse` (tool.rs lines 58-103):
`tool_box` takes an optional `= identifier` (a non-identifier value fails);
`default_build` takes an optional `= expr` whose token text must be exactly
`true` or `false` (anything else is "unknown attribute"), the bare key
meaning `true`; `description` takes an optional `= expr`, its bare key
being silently ignored; any other key is "unknown attribute". -/
def applyImplEntry (st : ToolImplItemAttrs) (e : ImplEntry) :
    Except String ToolImplItemAttrs :=
  if e.key = "tool_box" then
    match e.value with
    | none => .ok { st with tool_box := some none }
    | some (.identV v) => .ok { st with tool_box := some (some v) }
    | some (.exprV _) => .error "expected identifier"
  else if e.key = "default_build" then
    match e.value with
    | none => .ok { st with default_build := true }
    | some v =>
      if implValText v = "true" then .ok { st with default_build := true }
      else if implValText v = "false" then .ok { st with default_build := false }
      else .error "unknown attribute"
  else if e.key = "description" then
    match e.value with
    | none => .ok st
    | some v => .ok { st with description := some ⟨implValText v⟩ }
  else
    .error "unknown attribute"

/-- The loop of `ToolImplItemAttrs::parse` (tool.rs lines 53-111): fold the
entries over the state, stopping at the first failing entry. -/
def parseImplLoop (st : ToolImplItemAttrs) : List ImplEntry → Except String ToolImplItemAttrs
  | [] => .ok st
  | e :: rest =>
    match applyImplEntry st e with
    | .ok st2 => parseImplLoop st2 rest
    | .error msg => .error msg

/-- Entry point: parse an impl-item attribute stream from the initial state
of the source loop (`tool_box = None`, `default = true`,
`description = None`; tool.rs lines 55-57). -/
def parseToolImplItemAttrs (es : List ImplEntry) : Except String ToolImplItemAttrs :=
  parseImplLoop { tool_box := none, default_build := true, description := none } es

/-- Rust `str::trim`, modelled over the character list (whitespace as in
`Char.isWhitespace`; the claims only involve ASCII whitespace).  Implemented
on `List Char` so that it evaluates by kernel reduction. -/
def rustTrim (s : String) : String :=
  ⟨((s.data.dropWhile Char.isWhitespace).reverse.dropWhile Char.isWhitespace).reverse⟩

/-- Rust `str::to_ascii_uppercase`, over the character list
(`Char.toUpper` is ASCII-only, matching the source). -/
def rustToUpper (s : String) : String :=
  ⟨s.data.map Char.toUpper⟩

/-! ## Declaration model -/

/-- An attribute on a declaration.  `doc` is a `#[doc = "..."]` name-value
attribute with a string literal (a documentation-comment line); `named` is
any other attribute, identified by its path (e.g. `tool`). -/
inductive Attr
  | doc (content : String)
  | named (name : String)
deriving DecidableEq, Repr, Inhabited

/-- `extract_doc_line` (tool.rs lines 460-480): only `doc` name-value string
attributes contribute; the line is trimmed and dropped if empty after
trimming. -/
def extract_doc_line : Attr → Option String
  | .doc content =>
    let t := rustTrim content
    if t = "" then none else some t
  | .named _ => none

/-- A `syn::Meta::List` attribute body: a path plus its argument tokens. -/
structure MetaL where
  path : String
  tokens : String
deriving DecidableEq, Repr, Inhabited

/-- An attribute on a function parameter: a list-style meta (the only kind
inspected by the source) or any other attribute shape (passed through). -/
inductive ParamAttr
  | meta (m : MetaL)
  | otherAttr (text : String)
deriving DecidableEq, Repr, Inhabited

/-- A binding pattern of a typed parameter: a plain identifier pattern or
any other pattern (kept as text). -/
inductive Pat
  | id (s : String)
  | other (s : String)
deriving DecidableEq, Repr, Inhabited

/-- One input of a function signature: the receiver (with its type text,
e.g. `&Self`) or a typed parameter. -/
inductive FnArg
  | receiver (ty : String)
  | typed (pat : Pat) (ty : String) (attrs : List ParamAttr)
deriving DecidableEq, Repr, Inhabited

/-- A function item: outer attributes, visibility, asyncness, identifier and
signature inputs (`syn::ItemFn` restricted to what the generator reads). -/
structure ItemFn where
  attrs : List Attr
  vis : Vis
  isAsync : Bool
  ident : String
  inputs : List FnArg
deriving DecidableEq, Repr, Inhabited

/-- The serde-namespaced meta lists stripped from a parameter
(tool.rs lines 505-521). -/
def serdeMetasOf (attrs : List ParamAttr) : List MetaL :=
  attrs.filterMap fun a =>
    match a with
    | .meta m => if m.path = SERDE_IDENT then some m else none
    | .otherAttr _ => none

/-- The schemars-namespaced meta lists stripped from a parameter
(tool.rs lines 505-521). -/
def schemarsMetasOf (attrs : List ParamAttr) : List MetaL :=
  attrs.filterMap fun a =>
    match a with
    | .meta m => if m.path = SCHEMARS_IDENT then some m else none
    | .otherAttr _ => none

/-- Attribute stripping applied to each typed parameter: serde/schemars meta
lists are drained into separate collections, all other attributes are pushed
back in order (tool.rs lines 505-521). -/
def stripArg : FnArg → FnArg
  | .receiver ty => .receiver ty
  | .typed pat ty attrs =>
    .typed pat ty (attrs.filter fun a =>
      match a with
      | .meta m => ¬ (m.path = SERDE_IDENT ∨ m.path = SCHEMARS_IDENT)
      | .otherAttr _ => true)

/-- `ToolFnParamAttrs` (tool.rs lines 178-183): one structured-field
parameter with its retained directive collections. -/
structure ToolFnParamAttrs where
  serde_meta : List MetaL
  schemars_meta : List MetaL
  ident : String
  rust_type : String
deriving DecidableEq, Repr, Inhabited

/-- `ToolParams` (tool.rs lines 199-210): the classification outcome for one
declaration. -/
inductive ToolParams
  | aggregated (pat : Pat) (ty : String)
  | params (attrs : List ToolFnParamAttrs)
  | noParam
deriving DecidableEq, Repr, Inhabited

/-- The classification loop of `tool_fn_item` (tool.rs lines 488-567).
Receivers are skipped (`continue`).  With the item-level `aggr` flag set,
every typed parameter is caught as `Aggregated`; the source errors with
"cannot mix aggregated and individual parameters" only if the accumulator
already holds `Params`.  Without the flag, a typed parameter must bind an
identifier pattern ("input param must have an ident as name") and is
appended as a structured field.  Every caught parameter index is added to
`unextractable_args_indexes` (here the accumulator `u`). -/
def classifyLoop (aggr : Bool) :
    Nat → ToolParams → List Nat → List FnArg → Except String (ToolParams × List Nat)
  | _, p, u, [] => .ok (p, u)
  | idx, p, u, .receiver _ :: rest => classifyLoop aggr (idx + 1) p u rest
  | idx, p, u, .typed pat ty attrs :: rest =>
    if aggr then
      match p with
      | .params _ => .error "cannot mix aggregated and individual parameters"
      | _ => classifyLoop aggr (idx + 1) (.aggregated pat ty) (u ++ [idx]) rest
    else
      match pat with
      | .id name =>
        let param : ToolFnParamAttrs :=
          { serde_meta := serdeMetasOf attrs, schemars_meta := schemarsMetasOf attrs,
            ident := name, rust_type := ty }
        let p2 : ToolParams :=
          match p with
          | .params ps => .params (ps ++ [param])
          | _ => .params [param]
        classifyLoop aggr (idx + 1) p2 (u ++ [idx]) rest
      | .other _ => .error "input param must have an ident as name"

/-! ## Generated-code model (function items) -/

/-- The name field of the emitted descriptor (tool.rs lines 570-577): either
the explicit name expression or the tokens `stringify!(<fn ident>)`, whose
runtime value is the literal text of the identifier. -/
inductive NameCode
  | exprName (e : Expr)
  | stringifyIdent (ident : String)
deriving DecidableEq, Repr, Inhabited

/-- The value the emitted name expression evaluates to, where statically
known: `stringify!(id)` yields the identifier text; an arbitrary explicit
expression is not evaluated here. -/
def NameCode.value : NameCode → Option String
  | .exprName _ => none
  | .stringifyIdent ident => some ident

/-- The description field of the emitted descriptor (tool.rs lines 584-599
and 277-291): either the explicit description expression or the tokens
`<joined doc content>.trim().to_string()` where the joined content is the
newline join of the extracted doc lines. -/
inductive DescCode
  | exprDesc (e : Expr)
  | docDerived (content : String)
deriving DecidableEq, Repr, Inhabited

/-- The value the emitted description expression evaluates to, where
statically known: the doc-derived tokens apply `.trim()` to the joined
content at runtime. -/
def DescCode.value : DescCode → Option String
  | .exprDesc _ => none
  | .docDerived content => some (rustTrim content)

/-- The synthetic request record emitted by `create_request_type`. -/
structure RequestType where
  name : String
  fields : List ToolFnParamAttrs
deriving DecidableEq, Repr, Inhabited

/-- `create_request_type` (tool.rs lines 797-813): the synthetic record is
named by uppercasing the tool identifier (ASCII) between a fixed prefix and
suffix, and its fields are exactly the structured-field parameters in
order, each re-emitting its retained serde/schemars meta lists. -/
def create_request_type (attrs : List ToolFnParamAttrs) (tool_name : String) :
    RequestType :=
  { name := "__" ++ rustToUpper tool_name ++ "ToolCallParam", fields := attrs }

/-- The schema expression of the emitted descriptor (tool.rs lines 600-624):
a memoized-schema reference `cached_schema_for_type::<ty>()` for a type, or
a block emitting the synthetic record followed by a memoized-schema
reference for it. -/
inductive SchemaCode
  | cachedFor (ty : String)
  | syntheticCached (req : RequestType)
deriving DecidableEq, Repr, Inhabited

/-- The annotation field of the emitted descriptor (tool.rs lines 628-636).
`deferredParse json` models the emitted tokens
`Some(serde_json::from_str::<rmcp::model::ToolAnnotations>(&json).expect(..))`:
the serialized table is embedded as a string literal and re-parsed inside
the generated accessor body, i.e. when the accessor runs, not during the
generation pass.  `resolvedValue` models an annotation value fully parsed
into the target shape at generation time; the generator never produces it
(it exists to state the specification's claimed behaviour). -/
inductive AnnCode
  | noneCode
  | deferredParse (json : String)
  | resolvedValue (json : String)
deriving DecidableEq, Repr, Inhabited

/-- Escape a string for embedding in a JSON document (quote and backslash;
control-character escapes do not arise in the claims). -/
def jsonEscape (s : String) : String :=
  s.data.foldl (fun acc c =>
    if c = '"' then acc ++ "\\\""
    else if c = '\\' then acc ++ "\\\\"
    else acc.push c) ""

/-- Serialization of one annotation value. -/
def serializeAnnVal : AnnVal → String
  | .str s => "\"" ++ jsonEscape s ++ "\""
  | .bool b => if b then "true" else "false"

/-- `serde_json::to_string` of the annotation map (keys already in map
order). -/
def serializeAnnotations (m : ToolAnnotationAttrs) : String :=
  "\x7b" ++ String.intercalate ","
    (m.map fun kv => "\"" ++ jsonEscape kv.1 ++ "\":" ++ serializeAnnVal kv.2)
    ++ "\x7d"

/-- The emitted descriptor accessor `<ident>_tool_attr` (tool.rs lines
638-649). -/
structure ToolAttrFn where
  fnName : String
  vis : Vis
  name : NameCode
  description : DescCode
  schema : SchemaCode
  annotations : AnnCode
deriving DecidableEq, Repr, Inhabited

/-- The fixed identifier used for the extracted receiver value
(tool.rs line 679). -/
def receiverName : String := "__rmcp_tool_receiver"

/-- The tokens of a pattern as interpolated into generated code. -/
def patText : Pat → String
  | .id s => s
  | .other s => s

/-- The argument expression used for one signature input in the final call
(tool.rs lines 739-753): the receiver becomes `__rmcp_tool_receiver`, a
typed parameter re-uses its pattern. -/
def argPat : FnArg → String
  | .receiver _ => receiverName
  | .typed pat _ _ => patText pat

/-- One trivial extraction line
`let (pat, context) = <ty>::from_tool_call_context_part(context)?;`
(tool.rs lines 690-707). -/
structure ExtractStep where
  pat : String
  ty : String
deriving DecidableEq, Repr, Inhabited

/-- The extraction line for one signature input. -/
def stepOf : FnArg → ExtractStep
  | .receiver ty => { pat := receiverName, ty := ty }
  | .typed pat ty _ => { pat := patText pat, ty := ty }

/-- The processed-argument extraction part of the wrapper (tool.rs lines
713-736): a `Parameters<ty>` single-value extraction for aggregated mode, a
JSON-object extraction plus deserialization into the synthetic record for
structured mode, or nothing. -/
inductive ProcessedPart
  | aggregatedExtract (pat : Pat) (ty : String)
  | paramsExtract (req : RequestType) (fields : List String)
  | noExtract
deriving DecidableEq, Repr, Inhabited

/-- The emitted dispatch wrapper `<ident>_tool_call` (tool.rs lines
652-789): trivial extraction steps in order, the processed extraction, the
positional call-argument list, and whether the call is awaited. -/
structure ToolCallFn where
  fnName : String
  vis : Vis
  trivialSteps : List ExtractStep
  processed : ProcessedPart
  callArgs : List String
  isAwait : Bool
deriving DecidableEq, Repr, Inhabited

/-- The full output of `tool_fn_item`: the descriptor accessor, the dispatch
wrapper, and the original function with parameter attributes stripped. -/
structure FnOutput where
  attrFn : ToolAttrFn
  callFn : ToolCallFn
  original : ItemFn
deriving DecidableEq, Repr, Inhabited

/-- Assembly of the `tool_fn_item` output from the parsed attributes and the
classification result (tool.rs lines 569-794). -/
def mkFnOutput (args : ToolFnItemAttrs) (params : ToolParams) (unext : List Nat)
    (fn : ItemFn) : FnOutput :=
  let nameCode : NameCode :=
    match args.name with
    | some e => .exprName e
    | none => .stringifyIdent fn.ident
  let descCode : DescCode :=
    match args.description with
    | some e => .exprDesc e
    | none => .docDerived (String.intercalate "\n" (fn.attrs.filterMap extract_doc_line))
  let schema : SchemaCode :=
    match params with
    | .aggregated _ ty => .cachedFor ty
    | .params attrs => .syntheticCached (create_request_type attrs fn.ident)
    | .noParam => .cachedFor "rmcp::model::EmptyObject"
  let ann : AnnCode :=
    match args.annotations with
    | some m => .deferredParse (serializeAnnotations m)
    | none => .noneCode
  let processed : ProcessedPart :=
    match params with
    | .aggregated pat ty => .aggregatedExtract pat ty
    | .params attrs =>
      .paramsExtract (create_request_type attrs fn.ident) (attrs.map fun a => a.ident)
    | .noParam => .noExtract
  let trivialSteps : List ExtractStep :=
    fn.inputs.enum.filterMap fun pr =>
      if pr.1 ∈ unext then none else some (stepOf pr.2)
  { attrFn :=
      { fnName := fn.ident ++ "_tool_attr", vis := fn.vis, name := nameCode,
        description := descCode, schema := schema, annotations := ann },
    callFn :=
      { fnName := fn.ident ++ "_tool_call", vis := args.vis.getD fn.vis,
        trivialSteps := trivialSteps, processed := processed,
        callArgs := fn.inputs.map argPat, isAwait := fn.isAsync },
    original := { fn with inputs := fn.inputs.map stripArg } }

/-- `tool_fn_item` (tool.rs lines 482-795): parse the attribute stream,
classify the signature inputs, and emit the descriptor accessor, the
dispatch wrapper and the stripped original function. -/
def tool_fn_item (attrTs : List FnTok) (fn : ItemFn) : Except String FnOutput :=
  match parseToolFnItemAttrs attrTs with
  | .error e => .error e
  | .ok args =>
    match classifyLoop args.aggr 0 .noParam [] fn.inputs with
    | .error e => .error e
    | .ok (params, unext) => .ok (mkFnOutput args params unext fn)

/-! ## Declaration model and generator (impl blocks) -/

/-- An item inside an impl block: a method (identifier plus attributes) or
any other item kind, which the scan ignores. -/
inductive ImplItem
  | fnItem (ident : String) (attrs : List Attr)
  | otherItem
deriving DecidableEq, Repr, Inhabited

/-- An impl block (`syn::ItemImpl` restricted to what the generator reads):
whether it is a trait implementation, its generic parameter names, the self
type text, its outer attributes and its items. -/
structure ItemImpl where
  isTrait : Bool
  generics : List String
  selfTy : String
  attrs : List Attr
  items : List ImplItem
deriving DecidableEq, Repr, Inhabited

/-- The scan for tool-marked methods (tool.rs lines 292-302): for every
method item, every attribute whose path is `tool` pushes the method
identifier, in declaration order. -/
def collectToolIdents (items : List ImplItem) : List String :=
  items.foldl (fun acc it =>
    match it with
    | .fnItem fid attrs =>
      acc ++ attrs.filterMap fun a =>
        match a with
        | .named n => if n = TOOL_IDENT then some fid else none
        | .doc _ => none
    | .otherItem => acc) []

/-- An item appended to the impl block by `tool_impl_item`:
`callToolForward`/`listToolsForward` are the forwarding methods of the
generic trait case (tool.rs lines 312-331); `toolBoxDeriveItem` is
`rmcp::tool_box!(@derive ident)` (line 334); `callToolInner` is the
generated name-keyed router with one match arm per collected tool ident in
order (lines 366-378); `listToolsInner` is the generated listing method
(lines 381-392); `toolBoxInvoke` is the `rmcp::tool_box!` invocation of the
non-generic inherent case (lines 427-431). -/
inductive GenImplItem
  | callToolForward
  | listToolsForward
  | toolBoxDeriveItem (toolBox : Option String)
  | callToolInner (arms : List String)
  | listToolsInner (toolIdents : List String)
  | toolBoxInvoke (selfTy : String) (idents : List String) (toolBox : Option String)
deriving DecidableEq, Repr, Inhabited

/-- The optional extra `ServerHandler` implementation emitted when the
default-build flag is set (tool.rs lines 394-423 and 432-449). -/
inductive ExtendCode
  | serverHandlerGeneric (generics : List String) (selfTy : String) (desc : DescCode)
  | serverHandlerDerive (generics : List String) (selfTy : String)
      (toolBox : Option String) (desc : DescCode)
deriving DecidableEq, Repr, Inhabited

/-- The output of `tool_impl_item`: the original impl block always passes
through; `genItems` are the items appended to it and `extend` the optional
trailing `ServerHandler` implementation. -/
structure ImplOutput where
  genItems : List GenImplItem
  extend : Option ExtendCode
deriving DecidableEq, Repr, Inhabited

/-- `tool_impl_item` (tool.rs lines 273-457).  The description is resolved
up front (explicit expression, else doc-derived).  A trait implementation
requires the binding identifier ("tool_box attribute is required for trait
implementation"); with generics it appends two forwarding methods, without
generics the `tool_box!(@derive ..)` item.  An inherent impl WITH a binding
identifier appends either the generated router and listing (generics) or
the `tool_box!` invocation (no generics), plus the optional default-build
handler implementation; an inherent impl WITHOUT a binding identifier falls
through both branches and is returned unchanged. -/
def tool_impl_item (attrTs : List ImplEntry) (impl : ItemImpl) :
    Except String ImplOutput :=
  match parseToolImplItemAttrs attrTs with
  | .error e => .error e
  | .ok a =>
    let desc : DescCode :=
      match a.description with
      | some e => .exprDesc e
      | none =>
        .docDerived (String.intercalate "\n" (impl.attrs.filterMap extract_doc_line))
    let idents := collectToolIdents impl.items
    if impl.isTrait then
      match a.tool_box with
      | some ib =>
        if impl.generics.isEmpty then
          .ok { genItems := [.toolBoxDeriveItem ib], extend := none }
        else
          .ok { genItems := [.callToolForward, .listToolsForward], extend := none }
      | none => .error "tool_box attribute is required for trait implementation"
    else
      match a.tool_box with
      | some ib =>
        if impl.generics.isEmpty then
          .ok { genItems := [.toolBoxInvoke impl.selfTy idents ib],
                extend :=
                  if a.default_build then
                    some (.serverHandlerDerive impl.generics impl.selfTy ib desc)
                  else none }
        else
          .ok { genItems := [.callToolInner idents, .listToolsInner idents],
                extend :=
                  if a.default_build then
                    some (.serverHandlerGeneric impl.generics impl.selfTy desc)
                  else none }
      | none => .ok { genItems := [], extend := none }

/-! ## Runtime semantics of the generated code -/

/-- The runtime error type of the generated code (`rmcp::Error`), reduced to
the classification the claims mention: `invalidParams` is
`Error::invalid_params(..)`. -/
inductive RmcpError
  | invalidParams (msg : String)
  | otherError (msg : String)
deriving DecidableEq, Repr, Inhabited

/-- The external collaborator contracts the generated wrapper calls into:
`extract ty` is `<ty>::from_tool_call_context_part(context)` returning the
value and the remaining context; `deserialize` is `parse_json_object` into
the synthetic record, returning the record as a field-name valuation. -/
structure Oracle (Ctx Value : Type) where
  extract : String → Ctx → Except RmcpError (Value × Ctx)
  deserialize : Value → Except RmcpError (String → Value)

/-- Execution of the trivial extraction lines, in order: each line extracts
by the parameter's declared type from the current context, binds the
pattern, and rebinds the context to the returned remaining context; a
failing extraction short-circuits (the `?` operator). -/
def runTrivial {Ctx Value : Type} (O : Oracle Ctx Value) :
    List ExtractStep → Ctx → List (String × Value) →
      Except RmcpError (List (String × Value) × Ctx)
  | [], c, env => .ok (env, c)
  | s :: rest, c, env =>
    match O.extract s.ty c with
    | .error e => .error e
    | .ok (v, c2) => runTrivial O rest c2 (env ++ [(s.pat, v)])

/-- Execution of the processed extraction part: aggregated mode extracts one
`Parameters<ty>` value and binds the pattern to its payload; structured mode
extracts a `rmcp::model::JsonObject` value, deserializes it into the
synthetic record and binds every field identifier; no-param mode extracts
nothing.  Failures short-circuit. -/
def bindProcessed {Ctx Value : Type} (O : Oracle Ctx Value) :
    ProcessedPart → Ctx → Except RmcpError (List (String × Value) × Ctx)
  | .noExtract, c => .ok ([], c)
  | .aggregatedExtract pat ty, c =>
    match O.extract ("Parameters<" ++ ty ++ ">") c with
    | .error e => .error e
    | .ok (v, c2) => .ok ([(patText pat, v)], c2)
  | .paramsExtract _ fields, c =>
    match O.extract "rmcp::model::JsonObject" c with
    | .error e => .error e
    | .ok (o, c2) =>
      match O.deserialize o with
      | .error e => .error e
      | .ok fld => .ok (fields.map (fun f => (f, fld f)), c2)

/-- Look up a bound name in the environment; later `let` bindings shadow
earlier ones. -/
def lookupEnv {Value : Type} [Inhabited Value] (env : List (String × Value))
    (x : String) : Value :=
  match env.reverse.find? (fun kv => kv.1 == x) with
  | some kv => kv.2
  | none => default

/-- Execution of the generated dispatch wrapper body: run the trivial
extraction lines, then the processed extraction, then invoke the original
logic positionally on the call-argument list and convert its return value
(`into_call_tool_result`, here `conv`, which itself yields the final
`Result`). -/
def execToolCallFn {Ctx Value R Res : Type} [Inhabited Value]
    (O : Oracle Ctx Value) (invoke : List Value → R)
    (conv : R → Except RmcpError Res) (w : ToolCallFn) (c : Ctx) :
    Except RmcpError Res :=
  match runTrivial O w.trivialSteps c [] with
  | .error e => .error e
  | .ok (env1, c1) =>
    match bindProcessed O w.processed c1 with
    | .error e => .error e
    | .ok (env2, _) =>
      conv (invoke (w.callArgs.map (lookupEnv (env1 ++ env2))))

/-- Execution of the generated router match (tool.rs lines 373-376): the
guard arms are tried in order, the first tool whose descriptor name equals
the requested name has its wrapper invoked, and the default arm fails with
`Error::invalid_params("tool not found", None)`. -/
def routeCall {Res : Type} (arms : List String) (attrName : String → String)
    (wrapper : String → Except RmcpError Res) (req : String) :
    Except RmcpError Res :=
  match arms with
  | [] => .error (.invalidParams "tool not found")
  | i :: rest =>
    if attrName i = req then wrapper i else routeCall rest attrName wrapper req

/-- Execution of the generated listing method (tool.rs lines 381-392): the
result carries no pagination cursor and the descriptor of every collected
tool in order. -/
def listToolsSem {T : Type} (idents : List String) (attrOf : String → T) :
    Option String × List T :=
  (none, idents.map attrOf)

/-! ## Specification-side definitions (for refinement statements) -/

/-- The raw documentation-comment lines of a declaration. -/
def docStrings (attrs : List Attr) : List String :=
  attrs.filterMap fun a =>
    match a with
    | .doc s => some s
    | .named _ => none

/-- Modelled from the spec: the description derived from a documentation
comment is "the concatenation of the declaration's documentation-comment
lines, each individually trimmed with empty-after-trim lines dropped at
extraction, joined with newline separators, with the overall result
trimmed". -/
def specDescription (docLines : List String) : String :=
  rustTrim (String.intercalate "\n"
    ((docLines.map rustTrim).filter (fun s => ¬ s = "")))

/-- The typed (non-receiver) parameters of a signature, as pattern-type
pairs in declaration order. -/
def typedArgsOf (args : List FnArg) : List (Pat × String) :=
  args.filterMap fun a =>
    match a with
    | .typed pat ty _ => some (pat, ty)
    | .receiver _ => none

/-- Whether a signature has no inputs besides the receiver. -/
def noTypedArgs (args : List FnArg) : Bool :=
  args.all fun a =>
    match a with
    | .receiver _ => true
    | .typed _ _ _ => false

/-- The structured fields a signature yields in declaration order: every
identifier-bound typed parameter with its stripped serde/schemars meta
lists. -/
def fieldsOf : List FnArg → List ToolFnParamAttrs
  | [] => []
  | .typed (.id s) ty attrs :: rest =>
    { serde_meta := serdeMetasOf attrs, schemars_meta := schemarsMetasOf attrs,
      ident := s, rust_type := ty } :: fieldsOf rest
  | _ :: rest => fieldsOf rest

/-- The last typed parameter of a signature, if any. -/
def lastTyped : List FnArg → Option (Pat × String)
  | [] => none
  | .typed pat ty _ :: rest =>
    match lastTyped rest with
    | some r => some r
    | none => some (pat, ty)
  | .receiver _ :: rest => lastTyped rest

/-- The indices (in the full enumerated input list) of the typed
parameters, starting the count at `n`. -/
def typedIdx : Nat → List FnArg → List Nat
  | _, [] => []
  | n, .receiver _ :: rest => typedIdx (n + 1) rest
  | n, .typed _ _ _ :: rest => n :: typedIdx (n + 1) rest

/-- The trivial extraction steps a signature yields: one step per input that
is NOT caught by classification, in declaration order (with every typed
input caught, these are exactly the receiver steps). -/
def trivialOf : List FnArg → List ExtractStep
  | [] => []
  | .receiver ty :: rest => { pat := receiverName, ty := ty } :: trivialOf rest
  | .typed _ _ _ :: rest => trivialOf rest

/-! ## Helper lemmas -/

/-- Whether a generation result is the mixed-parameter-kinds error. -/
def isMixedErr {A : Type} (r : Except String A) : Bool :=
  match r with
  | .error e => e == "cannot mix aggregated and individual parameters"
  | .ok _ => false

theorem filterMap_extract_doc (attrs : List Attr) :
    attrs.filterMap extract_doc_line
      = ((docStrings attrs).map rustTrim).filter (fun s => ¬ s = "") := by
  induction attrs with
  | nil => rfl
  | cons a rest ih =>
    cases a with
    | doc s =>
      by_cases h : rustTrim s = ""
      · simp [extract_doc_line, docStrings, h, List.filterMap_cons] at ih ⊢
        exact ih
      · simp [extract_doc_line, docStrings, h, List.filterMap_cons] at ih ⊢
        exact ih
    | named n =>
      simp [extract_doc_line, docStrings, List.filterMap_cons] at ih ⊢
      exact ih

theorem classifyLoop_not_mix :
    ∀ (args : List FnArg) (aggr : Bool) (idx : Nat) (p : ToolParams) (u : List Nat),
      (aggr = true → ∀ l, p ≠ ToolParams.params l) →
      isMixedErr (classifyLoop aggr idx p u args) = false := by
  intro args
  induction args with
  | nil =>
    intro aggr idx p u _
    rfl
  | cons a rest ih =>
    intro aggr idx p u h
    cases a with
    | receiver ty =>
      simpa [classifyLoop] using ih aggr (idx + 1) p u h
    | typed pat ty attrs =>
      cases aggr with
      | false =>
        cases pat with
        | id s =>
          simp only [classifyLoop, if_neg (by simp : ¬ (false = true))]
          cases p <;>
            exact ih false (idx + 1) _ (u ++ [idx]) (by intro hff; cases hff)
        | other s =>
          simp only [classifyLoop, if_neg (by simp : ¬ (false = true))]
          decide
      | true =>
        cases p with
        | params l => exact absurd rfl (h rfl l)
        | aggregated pa tya =>
          simp only [classifyLoop, if_pos rfl]
          exact ih true (idx + 1) (.aggregated pat ty) (u ++ [idx])
            (by intro _ l hc; cases hc)
        | noParam =>
          simp only [classifyLoop, if_pos rfl]
          exact ih true (idx + 1) (.aggregated pat ty) (u ++ [idx])
            (by intro _ l hc; cases hc)

theorem classifyLoop_aggr_ok :
    ∀ (args : List FnArg) (idx : Nat) (p : ToolParams) (u : List Nat)
      (res : ToolParams × List Nat),
      (∀ l, p ≠ ToolParams.params l) →
      classifyLoop true idx p u args = .ok res →
      res.1 = (match lastTyped args with
               | some r => ToolParams.aggregated r.1 r.2
               | none => p) := by
  intro args
  induction args with
  | nil =>
    intro idx p u res _ h
    simp only [classifyLoop] at h
    cases h
    rfl
  | cons a rest ih =>
    intro idx p u res hp h
    cases a with
    | receiver ty =>
      simp only [classifyLoop] at h
      simpa [lastTyped] using ih (idx + 1) p u res hp h
    | typed pat ty attrs =>
      simp only [classifyLoop, if_pos rfl] at h
      cases p with
      | params l => exact absurd rfl (hp l)
      | aggregated pa tya =>
        have := ih (idx + 1) (.aggregated pat ty) (u ++ [idx]) res
          (by intro l hc; cases hc) h
        cases hlt : lastTyped rest <;> simp [lastTyped, hlt] at this ⊢ <;> exact this
      | noParam =>
        have := ih (idx + 1) (.aggregated pat ty) (u ++ [idx]) res
          (by intro l hc; cases hc) h
        cases hlt : lastTyped rest <;> simp [lastTyped, hlt] at this ⊢ <;> exact this

theorem classifyLoop_params_acc :
    ∀ (args : List FnArg) (idx : Nat) (ps : List ToolFnParamAttrs) (u : List Nat)
      (res : ToolParams × List Nat),
      classifyLoop false idx (.params ps) u args = .ok res →
      res.1 = .params (ps ++ fieldsOf args) := by
  intro args
  induction args with
  | nil =>
    intro idx ps u res h
    simp only [classifyLoop] at h
    cases h
    simp [fieldsOf]
  | cons a rest ih =>
    intro idx ps u res h
    cases a with
    | receiver ty =>
      simp only [classifyLoop] at h
      simpa [fieldsOf] using ih (idx + 1) ps u res h
    | typed pat ty attrs =>
      cases pat with
      | id s =>
        simp only [classifyLoop, if_neg (by simp : ¬ (false = true))] at h
        have := ih (idx + 1) _ (u ++ [idx]) res h
        simpa [fieldsOf, List.append_assoc] using this
      | other s =>
        simp only [classifyLoop, if_neg (by simp : ¬ (false = true))] at h
        cases h

theorem classifyLoop_start_params :
    ∀ (args : List FnArg) (idx : Nat) (u : List Nat) (res : ToolParams × List Nat),
      classifyLoop false idx .noParam u args = .ok res →
      (res.1 = .noParam ∧ fieldsOf args = []) ∨ res.1 = .params (fieldsOf args) := by
  intro args
  induction args with
  | nil =>
    intro idx u res h
    simp only [classifyLoop] at h
    cases h
    exact Or.inl ⟨rfl, rfl⟩
  | cons a rest ih =>
    intro idx u res h
    cases a with
    | receiver ty =>
      simp only [classifyLoop] at h
      simpa [fieldsOf] using ih (idx + 1) u res h
    | typed pat ty attrs =>
      cases pat with
      | id s =>
        simp only [classifyLoop, if_neg (by simp : ¬ (false = true))] at h
        have := classifyLoop_params_acc rest (idx + 1) _ (u ++ [idx]) res h
        exact Or.inr (by simpa [fieldsOf] using this)
      | other s =>
        simp only [classifyLoop, if_neg (by simp : ¬ (false = true))] at h
        cases h

theorem classifyLoop_unext :
    ∀ (args : List FnArg) (aggr : Bool) (idx : Nat) (p : ToolParams) (u : List Nat)
      (res : ToolParams × List Nat),
      classifyLoop aggr idx p u args = .ok res →
      res.2 = u ++ typedIdx idx args := by
  intro args
  induction args with
  | nil =>
    intro aggr idx p u res h
    simp only [classifyLoop] at h
    cases h
    simp [typedIdx]
  | cons a rest ih =>
    intro aggr idx p u res h
    cases a with
    | receiver ty =>
      simp only [classifyLoop] at h
      simpa [typedIdx] using ih aggr (idx + 1) p u res h
    | typed pat ty attrs =>
      cases aggr with
      | true =>
        cases p with
        | params l =>
          simp only [classifyLoop, if_pos rfl] at h
          cases h
        | aggregated pa tya =>
          simp only [classifyLoop, if_pos rfl] at h
          have := ih true (idx + 1) _ (u ++ [idx]) res h
          simpa [typedIdx, List.append_assoc] using this
        | noParam =>
          simp only [classifyLoop, if_pos rfl] at h
          have := ih true (idx + 1) _ (u ++ [idx]) res h
          simpa [typedIdx, List.append_assoc] using this
      | false =>
        cases pat with
        | id s =>
          simp only [classifyLoop, if_neg (by simp : ¬ (false = true))] at h
          have := ih false (idx + 1) _ (u ++ [idx]) res h
          simpa [typedIdx, List.append_assoc] using this
        | other s =>
          simp only [classifyLoop, if_neg (by simp : ¬ (false = true))] at h
          cases h

theorem classifyLoop_noTyped :
    ∀ (args : List FnArg) (aggr : Bool) (idx : Nat) (p : ToolParams) (u : List Nat),
      noTypedArgs args = true →
      classifyLoop aggr idx p u args = .ok (p, u) := by
  intro args
  induction args with
  | nil => intro aggr idx p u _; rfl
  | cons a rest ih =>
    intro aggr idx p u h
    cases a with
    | receiver ty =>
      have h2 : noTypedArgs rest = true := by
        simpa [noTypedArgs] using h
      simpa [classifyLoop] using ih aggr (idx + 1) p u h2
    | typed pat ty attrs =>
      simp [noTypedArgs] at h

theorem typedIdx_lower :
    ∀ (args : List FnArg) (n m : Nat), m ∈ typedIdx n args → n ≤ m := by
  intro args
  induction args with
  | nil => intro n m h; simp [typedIdx] at h
  | cons a rest ih =>
    intro n m h
    cases a with
    | receiver ty =>
      simp only [typedIdx] at h
      exact le_trans (Nat.le_succ n) (ih (n + 1) m h)
    | typed pat ty attrs =>
      simp only [typedIdx, List.mem_cons] at h
      cases h with
      | inl h => omega
      | inr h => exact le_trans (Nat.le_succ n) (ih (n + 1) m h)

theorem enumFrom_filter_unext :
    ∀ (args : List FnArg) (n : Nat) (u0 : List Nat),
      (∀ j ∈ u0, j < n) →
      (List.enumFrom n args).filterMap
        (fun pr => if pr.1 ∈ u0 ++ typedIdx n args then none else some (stepOf pr.2))
      = trivialOf args := by
  intro args
  induction args with
  | nil => intro n u0 _; rfl
  | cons a rest ih =>
    intro n u0 hu
    cases a with
    | receiver ty =>
      have hmem : ¬ (n ∈ u0 ++ typedIdx n (FnArg.receiver ty :: rest)) := by
        simp only [typedIdx, List.mem_append]
        rintro (h | h)
        · exact absurd (hu n h) (lt_irrefl n)
        · have := typedIdx_lower rest (n + 1) n h
          omega
      have heq : (u0 ++ typedIdx n (FnArg.receiver ty :: rest))
          = u0 ++ typedIdx (n + 1) rest := by
        simp [typedIdx]
      have ihr := ih (n + 1) u0 (fun j hj => lt_trans (hu j hj) (Nat.lt_succ_self n))
      simp only [List.enumFrom, List.filterMap_cons, if_neg hmem]
      rw [heq, ihr]
      rfl
    | typed pat ty attrs =>
      have hmem : n ∈ u0 ++ typedIdx n (FnArg.typed pat ty attrs :: rest) := by
        simp [typedIdx]
      have heq : (u0 ++ typedIdx n (FnArg.typed pat ty attrs :: rest))
          = (u0 ++ [n]) ++ typedIdx (n + 1) rest := by
        simp [typedIdx]
      have ihr := ih (n + 1) (u0 ++ [n]) (by
        intro j hj
        rcases List.mem_append.mp hj with h | h
        · exact lt_trans (hu j h) (Nat.lt_succ_self n)
        · simp at h
          omega)
      simp only [List.enumFrom, List.filterMap_cons, if_pos hmem]
      rw [heq, ihr]
      rfl

theorem runTrivial_append {Ctx Value : Type} (O : Oracle Ctx Value) :
    ∀ (l1 l2 : List ExtractStep) (c : Ctx) (env : List (String × Value)),
      runTrivial O (l1 ++ l2) c env
        = (match runTrivial O l1 c env with
           | .error e => .error e
           | .ok r => runTrivial O l2 r.2 r.1) := by
  intro l1
  induction l1 with
  | nil => intro l2 c env; rfl
  | cons s rest ih =>
    intro l2 c env
    simp only [List.cons_append, runTrivial]
    cases O.extract s.ty c with
    | error e => rfl
    | ok vc => exact ih l2 vc.2 (env ++ [(s.pat, vc.1)])

theorem routeCall_find {Res : Type} (attrName : String → String)
    (wrapper : String → Except RmcpError Res) (req : String) :
    ∀ (arms : List String),
      routeCall arms attrName wrapper req
        = (match arms.find? (fun i => attrName i == req) with
           | some i => wrapper i
           | none => .error (.invalidParams "tool not found")) := by
  intro arms
  induction arms with
  | nil => rfl
  | cons i rest ih =>
    by_cases h : attrName i = req
    · simp [routeCall, List.find?, h]
    · simp only [routeCall, if_neg h, List.find?]
      have hb : (attrName i == req) = false := by
        simp [h]
      rw [hb]
      exact ih

/-! ## Further helpers -/

instance instDecEqExcept {E A : Type} [DecidableEq E] [DecidableEq A] :
    DecidableEq (Except E A) := fun a b =>
  match a, b with
  | .ok x, .ok y =>
    if h : x = y then isTrue (by rw [h]) else isFalse fun hc => h (Except.ok.inj hc)
  | .error x, .error y =>
    if h : x = y then isTrue (by rw [h]) else isFalse fun hc => h (Except.error.inj hc)
  | .ok _, .error _ => isFalse fun hc => Except.noConfusion hc
  | .error _, .ok _ => isFalse fun hc => Except.noConfusion hc

/-- Whether an impl attribute stream mentions the `default_build` key. -/
def hasDefaultBuildKey (es : List ImplEntry) : Bool :=
  es.any fun e => e.key == "default_build"

/-- Whether an impl attribute stream contains an explicit
`default_build = false` entry. -/
def hasExplicitDisable (es : List ImplEntry) : Bool :=
  es.any fun e =>
    e.key == "default_build" &&
      (match e.value with
       | some v => implValText v == "false"
       | none => false)

theorem applyImplEntry_db_other (st st2 : ToolImplItemAttrs) (e : ImplEntry)
    (h : applyImplEntry st e = .ok st2) (hk : ¬ e.key = "default_build") :
    st2.default_build = st.default_build := by
  by_cases k1 : e.key = "tool_box"
  · simp only [applyImplEntry, if_pos k1] at h
    cases hv : e.value with
    | none => rw [hv] at h; cases Except.ok.inj h; rfl
    | some v =>
      cases v with
      | identV s => rw [hv] at h; cases Except.ok.inj h; rfl
      | exprV s => rw [hv] at h; cases h
  · by_cases k3 : e.key = "description"
    · simp only [applyImplEntry, if_neg k1, if_neg hk, if_pos k3] at h
      cases hv : e.value with
      | none => rw [hv] at h; cases Except.ok.inj h; rfl
      | some v => rw [hv] at h; cases Except.ok.inj h; rfl
    · simp only [applyImplEntry, if_neg k1, if_neg hk, if_neg k3] at h
      cases h

theorem applyImplEntry_db_false (st st2 : ToolImplItemAttrs) (e : ImplEntry)
    (h : applyImplEntry st e = .ok st2) (hdb : st2.default_build = false) :
    st.default_build = false
      ∨ (e.key = "default_build" ∧ ∃ v, e.value = some v ∧ implValText v = "false") := by
  by_cases k2 : e.key = "default_build"
  · by_cases k1 : e.key = "tool_box"
    · exact absurd (k1.symm.trans k2) (by decide)
    · simp only [applyImplEntry, if_neg k1, if_pos k2] at h
      cases hv : e.value with
      | none =>
        rw [hv] at h
        cases Except.ok.inj h
        simp at hdb
      | some v =>
        by_cases hvf : implValText v = "false"
        · exact Or.inr ⟨k2, v, rfl, hvf⟩
        · rw [hv] at h
          by_cases hvt : implValText v = "true"
          · have h2 : ({ st with default_build := true } : ToolImplItemAttrs) = st2 := by
              apply Except.ok.inj
              rw [← h]
              simp [hvt]
            cases h2
            simp at hdb
          · have h2 : (Except.error "unknown attribute" : Except String ToolImplItemAttrs)
                = Except.ok st2 := by
              rw [← h]
              simp [hvt, hvf]
            exact Except.noConfusion h2
  · exact Or.inl ((applyImplEntry_db_other st st2 e h k2) ▸ hdb)

theorem parseImplLoop_db_absent (es : List ImplEntry) :
    ∀ (st a : ToolImplItemAttrs), parseImplLoop st es = .ok a →
      hasDefaultBuildKey es = false → a.default_build = st.default_build := by
  induction es with
  | nil =>
    intro st a h _
    cases Except.ok.inj h
    rfl
  | cons e rest ih =>
    intro st a h hkey
    simp only [hasDefaultBuildKey, List.any_cons, Bool.or_eq_false_iff] at hkey
    have hk : ¬ e.key = "default_build" := by
      intro hc
      simp [hc] at hkey
    cases happ : applyImplEntry st e with
    | error msg =>
      simp only [parseImplLoop, happ] at h
      cases h
    | ok st2 =>
      simp only [parseImplLoop, happ] at h
      have h2 := ih st2 a h (by
        simp only [hasDefaultBuildKey]
        exact hkey.2)
      rw [h2, applyImplEntry_db_other st st2 e happ hk]

theorem parseImplLoop_db_explicit (es : List ImplEntry) :
    ∀ (st a : ToolImplItemAttrs), parseImplLoop st es = .ok a →
      hasExplicitDisable es = false → a.default_build = false →
      st.default_build = false := by
  induction es with
  | nil =>
    intro st a h _ hdb
    cases Except.ok.inj h
    exact hdb
  | cons e rest ih =>
    intro st a h hED hdb
    simp only [hasExplicitDisable, List.any_cons, Bool.or_eq_false_iff] at hED
    cases happ : applyImplEntry st e with
    | error msg =>
      simp only [parseImplLoop, happ] at h
      cases h
    | ok st2 =>
      simp only [parseImplLoop, happ] at h
      have h2 := ih st2 a h (by
        simp only [hasExplicitDisable]
        exact hED.2) hdb
      rcases applyImplEntry_db_false st st2 e happ h2 with h3 | ⟨hk, v, hv, hvf⟩
      · exact h3
      · exfalso
        have := hED.1
        rw [hk, hv] at this
        simp [hvf] at this

/-- Dissection of a successful `tool_fn_item` run into its parse and
classification stages. -/
theorem tool_fn_item_ok_elim (ts : List FnTok) (d : ItemFn) (out : FnOutput)
    (hok : tool_fn_item ts d = .ok out) :
    ∃ args pr, parseToolFnItemAttrs ts = .ok args
      ∧ classifyLoop args.aggr 0 .noParam [] d.inputs = .ok pr
      ∧ out = mkFnOutput args pr.1 pr.2 d := by
  unfold tool_fn_item at hok
  cases hp : parseToolFnItemAttrs ts with
  | error e =>
    simp only [hp] at hok
    exact Except.noConfusion hok
  | ok args =>
    simp only [hp] at hok
    rcases hcl : classifyLoop args.aggr 0 ToolParams.noParam [] d.inputs with e | ⟨params, unext⟩
    · simp only [hcl] at hok
      exact Except.noConfusion hok
    · simp only [hcl] at hok
      exact ⟨args, (params, unext), rfl, hcl, (Except.ok.inj hok).symm⟩

/-- The successful output of a generation run (fallback value for the error
case, used only to state concrete witnesses). -/
def getFnOk (r : Except String FnOutput) : FnOutput :=
  match r with
  | .ok o => o
  | .error _ => default

/-- Claim C6: for every declaration, the descriptor description is the
explicit description expression when one is given, overriding any
documentation comment; otherwise it is derived from the documentation
comment as the trimmed newline-join of the individually trimmed,
empty-dropped comment lines (`specDescription` restates the specification
wording; `DescCode.value` evaluates the emitted expression). -/
theorem c6_description_resolution (ts : List FnTok) (d : ItemFn)
    (args : ToolFnItemAttrs) (out : FnOutput)
    (hp : parseToolFnItemAttrs ts = .ok args)
    (hok : tool_fn_item ts d = .ok out) :
    (∀ e, args.description = some e → out.attrFn.description = .exprDesc e)
    ∧ (args.description = none →
        out.attrFn.description
            = .docDerived (String.intercalate "\n" (d.attrs.filterMap extract_doc_line))
          ∧ out.attrFn.description.value = some (specDescription (docStrings d.attrs))) := by
  obtain ⟨args2, pr, hp2, hcl, hout⟩ := tool_fn_item_ok_elim ts d out hok
  cases Except.ok.inj (hp.symm.trans hp2)
  subst hout
  constructor
  · intro e he
    simp [mkFnOutput, he]
  · intro he
    constructor
    · simp [mkFnOutput, he]
    · simp only [mkFnOutput, he]
      simp only [DescCode.value]
      rw [filterMap_extract_doc]
      simp [specDescription]

def c6Fn : ItemFn :=
  { attrs := [.doc " adds two numbers ", .doc "   ", .named "tool", .doc "second line"],
    vis := .inherited, isAsync := false, ident := "add", inputs := [] }

def descValueOf (r : Except String FnOutput) : Option String :=
  match r with
  | .ok o => o.attrFn.description.value
  | .error _ => none

theorem c6_description_resolution_witness :
    descValueOf (tool_fn_item [] c6Fn) = some "adds two numbers\nsecond line" := by
  have h := c6_description_resolution [] c6Fn
    { name := none, description := none, vis := none, aggr := false, annotations := none }
    (getFnOk (tool_fn_item [] c6Fn)) (by decide) (by decide)
  have h2 := (h.2 rfl).2
  have h3 : descValueOf (tool_fn_item [] c6Fn)
      = (getFnOk (tool_fn_item [] c6Fn)).attrFn.description.value := by decide
  rw [h3, h2]
  decide

/-- Claim C8: for every declaration lacking an explicit name attribute, the
emitted descriptor name is the tokens `stringify!(<ident>)`, which evaluate
to the literal text of the declaration identifier; an explicit name
expression is used verbatim instead. -/
theorem c8_name_resolution (ts : List FnTok) (d : ItemFn)
    (args : ToolFnItemAttrs) (out : FnOutput)
    (hp : parseToolFnItemAttrs ts = .ok args)
    (hok : tool_fn_item ts d = .ok out) :
    (∀ e, args.name = some e → out.attrFn.name = .exprName e)
    ∧ (args.name = none →
        out.attrFn.name = .stringifyIdent d.ident
          ∧ out.attrFn.name.value = some d.ident) := by
  obtain ⟨args2, pr, hp2, hcl, hout⟩ := tool_fn_item_ok_elim ts d out hok
  cases Except.ok.inj (hp.symm.trans hp2)
  subst hout
  constructor
  · intro e he
    simp [mkFnOutput, he]
  · intro he
    exact ⟨by simp [mkFnOutput, he], by simp [mkFnOutput, he, NameCode.value]⟩

def c8Fn : ItemFn :=
  { attrs := [], vis := .inherited, isAsync := false, ident := "get_weather", inputs := [] }

def nameValueOf (r : Except String FnOutput) : Option String :=
  match r with
  | .ok o => o.attrFn.name.value
  | .error _ => none

theorem c8_name_resolution_witness :
    nameValueOf (tool_fn_item [] c8Fn) = some "get_weather" := by
  have h := c8_name_resolution [] c8Fn
    { name := none, description := none, vis := none, aggr := false, annotations := none }
    (getFnOk (tool_fn_item [] c8Fn)) (by decide) (by decide)
  have h2 := (h.2 rfl).2
  have h3 : nameValueOf (tool_fn_item [] c8Fn)
      = (getFnOk (tool_fn_item [] c8Fn)).attrFn.name.value := by decide
  rw [h3, h2]
  rfl

/-- Claim C10: in the function-item attribute grammar, the standalone
aggregation marker is accepted only as the sole or final element: whenever the
marker is followed by a comma, the next loop iteration sees the comma token
where it expects a key identifier and parsing fails with "expected identifier"
(the marker branch `continue`s without consuming the separator); in particular
`aggr, <key> ...` always fails, while the marker alone parses and sets the
aggregation flag. -/
theorem c10_aggr_marker_position :
    (∀ (st : ToolFnItemAttrs) (rest : List FnTok),
        parseFnLoop st (.ident AGGREGATED_IDENT :: .comma :: rest)
          = .error "expected identifier")
    ∧ (∀ (k : String) (rest : List FnTok),
        parseToolFnItemAttrs (.ident AGGREGATED_IDENT :: .comma :: .ident k :: rest)
          = .error "expected identifier")
    ∧ (∀ st : ToolFnItemAttrs,
        parseFnLoop st [.ident AGGREGATED_IDENT] = .ok { st with aggr := true })
    ∧ parseToolFnItemAttrs [.ident AGGREGATED_IDENT]
        = .ok { name := none, description := none, vis := none, aggr := true,
                annotations := none } := by
  refine ⟨fun st rest => ?_, fun k rest => ?_, fun st => ?_, ?_⟩
  · rfl
  · rfl
  · rfl
  · rfl

/-- Claim C2 (corrected): when an annotation table is parsed, the generator
serializes it and embeds the serialized JSON as a string literal inside the
emitted accessor, wrapped in a deferred `serde_json::from_str(..).expect(..)`
call that runs when the accessor is invoked — the re-parse is NOT performed
during the generation pass and cannot abort the build; the emitted annotation
code is never a generation-time resolved value.  When no table is parsed the
emitted annotation field is `None`. -/
theorem c2_annotations_resolution (ts : List FnTok) (d : ItemFn)
    (args : ToolFnItemAttrs) (out : FnOutput)
    (hp : parseToolFnItemAttrs ts = .ok args)
    (hok : tool_fn_item ts d = .ok out) :
    (args.annotations = none → out.attrFn.annotations = .noneCode)
    ∧ (∀ m, args.annotations = some m →
        out.attrFn.annotations = .deferredParse (serializeAnnotations m))
    ∧ (∀ j, ¬ out.attrFn.annotations = .resolvedValue j) := by
  obtain ⟨args2, pr, hp2, hcl, hout⟩ := tool_fn_item_ok_elim ts d out hok
  cases Except.ok.inj (hp.symm.trans hp2)
  subst hout
  refine ⟨fun he => ?_, fun m he => ?_, fun j => ?_⟩
  · simp [mkFnOutput, he]
  · simp [mkFnOutput, he]
  · cases he : args.annotations <;> simp [mkFnOutput, he]

def c2Ts : List FnTok :=
  [.ident "annotations", .eq, .braced [.ident "title", .colon, .litStr "x"]]

def c2Fn : ItemFn :=
  { attrs := [], vis := .inherited, isAsync := false, ident := "t", inputs := [] }

def annCodeOf (r : Except String FnOutput) : Option AnnCode :=
  match r with
  | .ok o => some o.attrFn.annotations
  | .error _ => none

theorem c2_annotations_resolution_witness :
    parseToolFnItemAttrs c2Ts
      = .ok { name := none, description := none, vis := none, aggr := false,
              annotations := some [("title", AnnVal.str "x")] }
    ∧ (getFnOk (tool_fn_item c2Ts c2Fn)).attrFn.annotations
        = .deferredParse (serializeAnnotations [("title", AnnVal.str "x")]) := by
  constructor
  · decide
  · exact (c2_annotations_resolution c2Ts c2Fn
      { name := none, description := none, vis := none, aggr := false,
        annotations := some [("title", AnnVal.str "x")] }
      (getFnOk (tool_fn_item c2Ts c2Fn)) (by decide) (by decide)).2.1
      [("title", AnnVal.str "x")] rfl

/-- A concrete generation run with an annotation table: the emitted annotation
code is the deferred runtime re-parse of the serialized table (and hence not a
value resolved during the generation pass, as the specification describes). -/
theorem c2_deferred_not_resolved :
    annCodeOf (tool_fn_item c2Ts c2Fn)
      = some (AnnCode.deferredParse "\x7b\"title\":\"x\"\x7d")
    ∧ ¬ annCodeOf (tool_fn_item c2Ts c2Fn)
        = some (AnnCode.resolvedValue "\x7b\"title\":\"x\"\x7d") := by
  decide

/-- Claim C1 (corrected): the "cannot mix aggregated and individual
parameters" error is unreachable from the entry classification: starting from
the `NoParam` accumulator, the item-level aggregation flag catches EVERY typed
parameter as `Aggregated`, so `Params` is never in the accumulator when that
check runs and classification never fails with the mixed-parameters error.
With the flag set and several typed parameters, the declaration is accepted
and the LAST typed parameter silently wins as the aggregated payload (the true
part: a result never holds `Aggregated` and `Params` at once, the two being
exclusive constructors of the same field). -/
theorem c1_classification_never_mixes (aggr : Bool) (args : List FnArg) :
    isMixedErr (classifyLoop aggr 0 .noParam [] args) = false
    ∧ (∀ res, classifyLoop true 0 .noParam [] args = .ok res →
        res.1 = (match lastTyped args with
                 | some r => ToolParams.aggregated r.1 r.2
                 | none => ToolParams.noParam)) := by
  constructor
  · exact classifyLoop_not_mix args aggr 0 .noParam []
      (fun _ l h => ToolParams.noConfusion h)
  · intro res h
    exact classifyLoop_aggr_ok args 0 .noParam [] res
      (fun l h => ToolParams.noConfusion h) h

def c1Args : List FnArg :=
  [.receiver "&Self", .typed (.id "a") "A" [], .typed (.id "b") "B" []]

theorem c1_classification_never_mixes_witness :
    isMixedErr (classifyLoop true 0 .noParam [] c1Args) = false
    ∧ ((ToolParams.aggregated (Pat.id "b") "B", ([1, 2] : List Nat)).1
        = match lastTyped c1Args with
          | some r => ToolParams.aggregated r.1 r.2
          | none => ToolParams.noParam) :=
  ⟨(c1_classification_never_mixes true c1Args).1,
   (c1_classification_never_mixes true c1Args).2
     (ToolParams.aggregated (Pat.id "b") "B", [1, 2]) (by decide)⟩

def c1Fn : ItemFn :=
  { attrs := [], vis := .inherited, isAsync := false, ident := "mixed",
    inputs := c1Args }

def schemaOf (r : Except String FnOutput) : Option SchemaCode :=
  match r with
  | .ok o => some o.attrFn.schema
  | .error _ => none

/-- A concrete declaration carrying the item-level aggregation marker together
with TWO additional typed parameters: generation succeeds (no
mixed-parameter-kinds rejection) and the emitted schema is the memoized schema
of the LAST typed parameter's type — the earlier one is silently dropped. -/
theorem c1_aggr_with_params_accepted :
    ¬ tool_fn_item [FnTok.ident AGGREGATED_IDENT] c1Fn
        = .error "cannot mix aggregated and individual parameters"
    ∧ schemaOf (tool_fn_item [FnTok.ident AGGREGATED_IDENT] c1Fn)
        = some (.cachedFor "B") := by
  decide

/-- Claim C3 (corrected): an implementation block processed without a
dispatcher-binding identifier fails ONLY when it is a trait implementation
("tool_box attribute is required for trait implementation", whatever its
generics); an inherent impl without the binding identifier does NOT fail — it
falls through both generation branches and is emitted unchanged, with no
generated items and no handler extension. -/
theorem c3_missing_binding (es : List ImplEntry) (impl : ItemImpl)
    (a : ToolImplItemAttrs)
    (hp : parseToolImplItemAttrs es = .ok a)
    (hb : a.tool_box = none) :
    tool_impl_item es impl
      = if impl.isTrait then
          .error "tool_box attribute is required for trait implementation"
        else .ok { genItems := [], extend := none } := by
  simp only [tool_impl_item, hp, hb]

def c3InherentImpl : ItemImpl :=
  { isTrait := false, generics := [], selfTy := "Server", attrs := [],
    items := [.fnItem "get_weather" [.named "tool"]] }

def c3TraitImpl : ItemImpl :=
  { isTrait := true, generics := ["S"], selfTy := "Server", attrs := [],
    items := [] }

theorem c3_missing_binding_witness :
    parseToolImplItemAttrs ([] : List ImplEntry)
      = .ok { tool_box := none, default_build := true, description := none }
    ∧ tool_impl_item [] c3TraitImpl
        = (if c3TraitImpl.isTrait then
            .error "tool_box attribute is required for trait implementation"
          else .ok { genItems := [], extend := none }) :=
  ⟨by decide,
   c3_missing_binding [] c3TraitImpl
     { tool_box := none, default_build := true, description := none }
     (by decide) rfl⟩

/-- A concrete inherent impl with a tool-marked method and no binding
identifier: generation succeeds and returns the block unchanged (no error, no
generated items), against the specified MissingDispatcherBindingError. -/
theorem c3_inherent_unchanged :
    tool_impl_item [] c3InherentImpl = .ok { genItems := [], extend := none } := by
  decide

theorem lastTyped_none_of_no_typed :
    ∀ args : List FnArg, typedArgsOf args = [] → lastTyped args = none := by
  intro args
  induction args with
  | nil => intro _; rfl
  | cons a rest ih =>
    intro h
    cases a with
    | receiver ty =>
      simp only [typedArgsOf, List.filterMap_cons] at h
      simp only [lastTyped]
      exact ih (by simpa [typedArgsOf] using h)
    | typed pat ty attrs =>
      simp [typedArgsOf, List.filterMap_cons] at h

theorem lastTyped_singleton :
    ∀ (args : List FnArg) (pt : Pat × String),
      typedArgsOf args = [pt] → lastTyped args = some pt := by
  intro args
  induction args with
  | nil => intro pt h; simp [typedArgsOf] at h
  | cons a rest ih =>
    intro pt h
    cases a with
    | receiver ty =>
      simp only [typedArgsOf, List.filterMap_cons] at h
      simp only [lastTyped]
      exact ih pt (by simpa [typedArgsOf] using h)
    | typed pat ty attrs =>
      simp only [typedArgsOf, List.filterMap_cons] at h
      have h1 : (pat, ty) = pt := by
        have := congrArg List.head? h
        simpa using this
      have h2 : typedArgsOf rest = [] := by
        have := congrArg List.tail h
        simpa [typedArgsOf] using this
      simp only [lastTyped, lastTyped_none_of_no_typed rest h2]
      exact congrArg some h1

/-- Claim C5: the emitted schema reference is determined by the classification
outcome.  A declaration with no inputs besides receivers emits the memoized
schema of the canonical empty-object type; an aggregated-mode declaration with
a single typed payload parameter emits the memoized schema of the declared
payload type; a structured-mode declaration with at least one field emits the
synthetic record built by `create_request_type` from exactly the structured
fields in declared order (each retaining its serde/schemars directives),
memoized. -/
theorem c5_schema_by_classification (ts : List FnTok) (d : ItemFn)
    (args : ToolFnItemAttrs) (out : FnOutput)
    (hp : parseToolFnItemAttrs ts = .ok args)
    (hok : tool_fn_item ts d = .ok out) :
    (noTypedArgs d.inputs = true →
        out.attrFn.schema = .cachedFor "rmcp::model::EmptyObject")
    ∧ (args.aggr = true → ∀ pt, typedArgsOf d.inputs = [pt] →
        out.attrFn.schema = .cachedFor pt.2)
    ∧ (args.aggr = false → ¬ fieldsOf d.inputs = [] →
        out.attrFn.schema
          = .syntheticCached (create_request_type (fieldsOf d.inputs) d.ident)) := by
  obtain ⟨args2, pr, hp2, hcl, hout⟩ := tool_fn_item_ok_elim ts d out hok
  cases Except.ok.inj (hp.symm.trans hp2)
  subst hout
  refine ⟨fun hnt => ?_, fun ha pt hpt => ?_, fun ha hf => ?_⟩
  · have h2 := classifyLoop_noTyped d.inputs args.aggr 0 .noParam [] hnt
    have h3 : pr = (ToolParams.noParam, []) := (Except.ok.inj (h2.symm.trans hcl)).symm
    cases h3
    simp [mkFnOutput]
  · rw [ha] at hcl
    have h2 := classifyLoop_aggr_ok d.inputs 0 .noParam [] pr
      (fun l h => ToolParams.noConfusion h) hcl
    rw [lastTyped_singleton d.inputs pt hpt] at h2
    rcases pr with ⟨p, u⟩
    cases h2
    simp [mkFnOutput]
  · rw [ha] at hcl
    rcases classifyLoop_start_params d.inputs 0 [] pr hcl with ⟨_, hnil⟩ | hps
    · exact absurd hnil hf
    · rcases pr with ⟨p, u⟩
      cases hps
      simp [mkFnOutput]

def c5Fn : ItemFn :=
  { attrs := [], vis := .inherited, isAsync := false, ident := "calc",
    inputs := [.receiver "&Self",
               .typed (.id "x") "i32" [.meta { path := "serde", tokens := "rename" }]] }

theorem c5_schema_by_classification_witness :
    (getFnOk (tool_fn_item [] c5Fn)).attrFn.schema
      = .syntheticCached (create_request_type (fieldsOf c5Fn.inputs) c5Fn.ident) :=
  (c5_schema_by_classification [] c5Fn
    { name := none, description := none, vis := none, aggr := false,
      annotations := none }
    (getFnOk (tool_fn_item [] c5Fn)) (by decide) (by decide)).2.2 rfl (by decide)

/-- Claim C9: the default-build flag of the impl-item attribute grammar
defaults to true — an attribute stream not mentioning the `default_build` key
parses with the flag true, and the flag is false only when an explicit
`default_build = false` entry is present; consequently, for every inherent
impl with a binding identifier whose parsed flag is true, the generated output
carries the handler-extension implementation. -/
theorem c9_default_build (es : List ImplEntry) (a : ToolImplItemAttrs)
    (hp : parseToolImplItemAttrs es = .ok a) :
    (hasDefaultBuildKey es = false → a.default_build = true)
    ∧ (hasExplicitDisable es = false → a.default_build = true)
    ∧ (∀ (impl : ItemImpl) (out : ImplOutput) (ib : Option String),
        impl.isTrait = false → a.tool_box = some ib → a.default_build = true →
        tool_impl_item es impl = .ok out → out.extend.isSome = true) := by
  refine ⟨fun hk => ?_, fun hd => ?_, fun impl out ib hT hb hdb hok => ?_⟩
  · exact parseImplLoop_db_absent es _ a hp hk
  · cases hres : a.default_build
    · exact absurd (parseImplLoop_db_explicit es _ a hp hd hres) (by decide)
    · rfl
  · simp only [tool_impl_item, hp, hT, hb] at hok
    rw [if_neg Bool.false_ne_true] at hok
    by_cases hg : impl.generics.isEmpty
    · rw [if_pos hg] at hok
      cases Except.ok.inj hok
      simp [hdb]
    · rw [if_neg hg] at hok
      cases Except.ok.inj hok
      simp [hdb]

def c9Es : List ImplEntry := [{ key := "tool_box", value := some (.identV "Box") }]

def c9Impl : ItemImpl :=
  { isTrait := false, generics := [], selfTy := "S", attrs := [], items := [] }

def getImplOk (r : Except String ImplOutput) : ImplOutput :=
  match r with
  | .ok o => o
  | .error _ => default

theorem c9_default_build_witness :
    ({ tool_box := some (some "Box"), default_build := true,
       description := none } : ToolImplItemAttrs).default_build = true
    ∧ (getImplOk (tool_impl_item c9Es c9Impl)).extend.isSome = true := by
  have h := c9_default_build c9Es
    { tool_box := some (some "Box"), default_build := true, description := none }
    (by decide)
  refine ⟨h.1 rfl, ?_⟩
  exact h.2.2 c9Impl (getImplOk (tool_impl_item c9Es c9Impl)) (some "Box")
    rfl rfl rfl (by decide)

/-- Claim C7: for every inherent impl with generic parameters and a binding
identifier, the generated items are exactly the name-keyed router and the
listing method over the collected tool identifiers in declaration order; the
router semantics tries the arms in order, invokes the wrapper of the first
tool whose descriptor name equals the request and falls to an invalid-params
"tool not found" error otherwise; the listing semantics returns exactly the
collected descriptors in order with no pagination cursor. -/
theorem c7_router_and_listing (es : List ImplEntry) (impl : ItemImpl)
    (a : ToolImplItemAttrs) (out : ImplOutput) (ib : Option String)
    (hp : parseToolImplItemAttrs es = .ok a)
    (hb : a.tool_box = some ib)
    (hT : impl.isTrait = false)
    (hG : ¬ impl.generics.isEmpty = true)
    (hok : tool_impl_item es impl = .ok out) :
    out.genItems
      = [.callToolInner (collectToolIdents impl.items),
         .listToolsInner (collectToolIdents impl.items)]
    ∧ (∀ (Res : Type) (attrName : String → String)
        (wrapper : String → Except RmcpError Res) (req : String),
        routeCall (collectToolIdents impl.items) attrName wrapper req
          = match (collectToolIdents impl.items).find?
                (fun i => attrName i == req) with
            | some i => wrapper i
            | none => .error (.invalidParams "tool not found"))
    ∧ (∀ (T : Type) (attrOf : String → T),
        listToolsSem (collectToolIdents impl.items) attrOf
          = (none, (collectToolIdents impl.items).map attrOf)) := by
  refine ⟨?_, fun Res attrName wrapper req => routeCall_find attrName wrapper req _,
    fun T attrOf => rfl⟩
  simp only [tool_impl_item, hp, hT, hb] at hok
  rw [if_neg Bool.false_ne_true, if_neg hG] at hok
  cases Except.ok.inj hok
  rfl

def c7Es : List ImplEntry := [{ key := "tool_box", value := some (.identV "MyTools") }]

def c7Impl : ItemImpl :=
  { isTrait := false, generics := ["S"], selfTy := "Server", attrs := [],
    items := [.fnItem "get_weather" [.named "tool"], .fnItem "helper" [],
              .fnItem "add" [.named "tool"]] }

theorem c7_router_and_listing_witness :
    (getImplOk (tool_impl_item c7Es c7Impl)).genItems
      = [.callToolInner ["get_weather", "add"],
         .listToolsInner ["get_weather", "add"]] := by
  have h := c7_router_and_listing c7Es c7Impl
    { tool_box := some (some "MyTools"), default_build := true, description := none }
    (getImplOk (tool_impl_item c7Es c7Impl)) (some "MyTools")
    (by decide) rfl rfl (by decide) (by decide)
  rw [h.1]
  decide

/-- Claim C4: the generated dispatch wrapper is strictly sequential: its
trivial extraction lines are exactly the non-caught inputs in original
declaration order (so the receiver's line comes first whenever the receiver
leads the signature), each line rebinding the context to the returned
remaining context with failures short-circuiting (`runTrivial`); then the
processed part — the single aggregated extraction or the structured
JSON-object extraction — as determined by classification; finally the original
logic is invoked positionally on the inputs in declaration order, awaited
exactly when the declaration is asynchronous, and the return value converted
through the result-envelope capability (`conv` in the semantics). -/
theorem c4_dispatch_sequential (ts : List FnTok) (d : ItemFn)
    (args : ToolFnItemAttrs) (out : FnOutput)
    (hp : parseToolFnItemAttrs ts = .ok args)
    (hok : tool_fn_item ts d = .ok out) :
    out.callFn.trivialSteps = trivialOf d.inputs
    ∧ (∀ ty rest, d.inputs = .receiver ty :: rest →
        out.callFn.trivialSteps
          = { pat := receiverName, ty := ty } :: trivialOf rest)
    ∧ out.callFn.callArgs = d.inputs.map argPat
    ∧ out.callFn.isAwait = d.isAsync
    ∧ (∃ pr, classifyLoop args.aggr 0 .noParam [] d.inputs = .ok pr
        ∧ out.callFn.processed
            = (match pr.1 with
               | ToolParams.aggregated pat ty =>
                 ProcessedPart.aggregatedExtract pat ty
               | ToolParams.params ps =>
                 ProcessedPart.paramsExtract (create_request_type ps d.ident)
                   (ps.map fun p => p.ident)
               | ToolParams.noParam => ProcessedPart.noExtract))
    ∧ (∀ (Ctx Value R Res : Type) (inst : Inhabited Value) (O : Oracle Ctx Value)
        (invoke : List Value → R) (conv : R → Except RmcpError Res) (c : Ctx),
        @execToolCallFn Ctx Value R Res inst O invoke conv out.callFn c
          = match runTrivial O (trivialOf d.inputs) c [] with
            | .error e => .error e
            | .ok (env1, c1) =>
              match bindProcessed O out.callFn.processed c1 with
              | .error e => .error e
              | .ok (env2, _) =>
                conv (invoke ((d.inputs.map argPat).map
                  (lookupEnv (env1 ++ env2))))) := by
  obtain ⟨args2, pr, hp2, hcl, hout⟩ := tool_fn_item_ok_elim ts d out hok
  cases Except.ok.inj (hp.symm.trans hp2)
  subst hout
  have hu := classifyLoop_unext d.inputs args.aggr 0 .noParam [] pr hcl
  have htr : (mkFnOutput args pr.1 pr.2 d).callFn.trivialSteps = trivialOf d.inputs := by
    show (d.inputs.enum.filterMap fun x =>
        if x.1 ∈ pr.2 then none else some (stepOf x.2)) = trivialOf d.inputs
    rw [hu]
    exact enumFrom_filter_unext d.inputs 0 [] (by intro j hj; simp at hj)
  refine ⟨htr, fun ty rest hin => ?_, rfl, rfl, ⟨pr, hcl, ?_⟩,
    fun Ctx Value R Res inst O invoke conv c => ?_⟩
  · rw [htr, hin]
    rfl
  · rcases pr with ⟨p, u⟩
    cases p <;> rfl
  · rw [← htr]
    rfl

def c4Fn : ItemFn :=
  { attrs := [], vis := .inherited, isAsync := true, ident := "fetch",
    inputs := [.receiver "&Self", .typed (.id "q") "Query" []] }

theorem c4_dispatch_sequential_witness :
    (getFnOk (tool_fn_item [] c4Fn)).callFn.trivialSteps = trivialOf c4Fn.inputs
    ∧ (getFnOk (tool_fn_item [] c4Fn)).callFn.callArgs = c4Fn.inputs.map argPat
    ∧ (getFnOk (tool_fn_item [] c4Fn)).callFn.isAwait = c4Fn.isAsync := by
  have h := c4_dispatch_sequential [] c4Fn
    { name := none, description := none, vis := none, aggr := false,
      annotations := none }
    (getFnOk (tool_fn_item [] c4Fn)) (by decide) (by decide)
  exact ⟨h.1, h.2.2.1, h.2.2.2.1⟩
